import Mathlib

/-!
Verification of the candidate-matching pipeline of `rare-reddit-pipeline`
(`scripts/find_candidates.py`, together with the normalization helper of
`scripts/build_ordo_vocab.py`).

The Python code is shallowly embedded.  External libraries are abstracted as
parameters of an environment record `Env`:

* `hit_ids`   models the spaCy EntityRuler wrapper built on line 56 of
  `find_candidates.py` (`lambda txt: {e.ent_id_ for e in nlp(txt).ents}`);
  the set it yields is represented as a `List String`, empty list = no match.
* `scorer`    models `rapidfuzz.fuzz.partial_ratio`, a similarity score on a
  0-100 scale, represented as `Rat`.
* `ordo_terms` models the module-level `ORDO_TERMS` list loaded from
  `data/ordo_terms.tsv` (lines 28-33).
* `hash_line` models `hash_line` of line 44-45 (`hashlib.md5(...).hexdigest()`);
  md5 itself is an external library, so it is kept abstract; it is a function,
  which captures that the digest of a string is deterministic.

Archives and their lines are represented by inductive types: a line either
decodes to a JSON object with the three optional fields the scanner reads, or
is malformed (in which case `json.loads` raises); an archive either opens to a
list of lines or fails to open (`zstd` decompression / IO error).  Exceptions
are modelled by `Except String`; an uncaught Python exception is an `error`
value that propagates, exactly as the source's lack of try/except does.

The output CSV is modelled as a list of rows (each row a list of cell
strings); CSV quoting is not modelled because no claim depends on it.
-/

namespace FindCandidates

/-- One decoded JSON metadata object, restricted to the fields the scanner
reads with `obj.get` in lines 76-78 of `find_candidates.py`.  A `none` field
models a key absent from the JSON object. -/
structure RecordObj where
  name : Option String
  title : Option String
  public_description : Option String
deriving DecidableEq

/-- One physical line of an archive: either it decodes to a JSON object, or
`json.loads` raises on it. -/
inductive Line where
  | valid (obj : RecordObj)
  | malformed (raw : String)
deriving DecidableEq

/-- One `.zst` archive: either it opens and streams a list of lines, or
opening / decompressing it raises (`open_zst`, lines 39-42). -/
inductive Archive where
  | ok (fname : String) (lines : List Line)
  | openError (fname : String) (msg : String)
deriving DecidableEq

/-- A row of the output CSV, as a list of cell strings. -/
abbrev Row := List String

/-- The abstracted external collaborators of the scanner; see the module
header for the source counterpart of each field. -/
structure Env where
  hit_ids : String → List String
  scorer : String → String → Rat
  ordo_terms : List String
  hash_line : String → String

/-- Model of `json.loads(line)` (line 74): a malformed line raises
`JSONDecodeError`, which the source does not catch. -/
def json_loads : Line → Except String RecordObj
  | Line.valid obj => Except.ok obj
  | Line.malformed raw => Except.error ("JSONDecodeError: " ++ raw)

/-- Model of `open_zst(path)` (lines 39-42) combined with iterating the
stream: a corrupt or unreadable archive raises, which the source does not
catch. -/
def open_zst : Archive → Except String (List Line)
  | Archive.ok _ lines => Except.ok lines
  | Archive.openError _ msg => Except.error ("ZstdError: " ++ msg)

/-- Model of Python's `str.lower()`, per character over the code points of
the string.  (Python lower-cases the full Unicode range; every character
appearing in the statements below is ASCII or a dash, on which the two
agree.) -/
def pyLower (s : String) : String :=
  ⟨s.data.map Char.toLower⟩

/-- Model of Python's slicing `s[n:]`: drop the first `n` code points. -/
def pyDrop (s : String) (n : Nat) : String :=
  ⟨s.data.drop n⟩

/-- Model of Python's `s.startswith(p)`. -/
def pyStartsWith (s p : String) : Bool :=
  List.isPrefixOf p.data s.data

/-- Strict lexicographic comparison of code-point sequences; this is exactly
the string ordering Python's `sorted` uses. -/
def lexLt : List Char → List Char → Bool
  | [], [] => false
  | [], _ :: _ => true
  | _ :: _, [] => false
  | a :: as, b :: bs =>
    if a.toNat < b.toNat then true
    else if b.toNat < a.toNat then false
    else lexLt as bs

/-- The corresponding non-strict string comparison. -/
def pyStrLe (a b : String) : Bool :=
  !(lexLt b.data a.data)

/-- Model of `obj.get(key, "")`: a missing field defaults to the empty
string. -/
def pyGet (o : Option String) : String :=
  o.getD ("")

/-- The raw subreddit name `raw_name = obj.get("name", "")` (line 76). -/
def rawName (obj : RecordObj) : String :=
  pyGet obj.name

/-- The stripped name, line 77:
`name = raw_name[2:] if raw_name.startswith("r/") else raw_name`. -/
def strippedName (obj : RecordObj) : String :=
  let raw := rawName obj
  if pyStartsWith raw ("r/") then pyDrop raw 2 else raw

/-- The composite match text, line 78:
`txt = f"{name} {title} {description}".lower()`.  Note that the source only
lower-cases this text. -/
def matchText (name title desc : String) : String :=
  pyLower (name ++ " " ++ title ++ " " ++ desc)

/-- `FUZZY_THRESH = 85` (line 24), a RapidFuzz score on a 0-100 scale. -/
def FUZZY_THRESH : Rat := 85

/-- One step of the best-match scan underlying `extractOne`: keep the
incumbent unless the new choice scores strictly higher. -/
def pickBest (scorer : String → String → Rat) (query : String)
    (best : Option (String × Rat)) (t : String) : Option (String × Rat) :=
  match best with
  | none => some (t, scorer query t)
  | some (bt, bs) =>
    let s := scorer query t
    if bs < s then some (t, s) else some (bt, bs)

/-- Model of `rapidfuzz.process.extractOne(query, choices, scorer)` with its
defaults: returns the first choice attaining the maximal score, or `none`
when `choices` is empty. -/
def extractOne (scorer : String → String → Rat) (query : String)
    (choices : List String) : Option (String × Rat) :=
  choices.foldl (pickBest scorer query) none

/-- Model of Python's `sorted(ids)` where `ids` is a set of strings: the
distinct elements in lexicographic order. -/
def pySortedSet (l : List String) : List String :=
  List.insertionSort (fun a b => pyStrLe a b = true) l.dedup

/-- The candidate row buffered on line 93:
`[raw_name, ";".join(sorted(ids))]`. -/
def mkRow (obj : RecordObj) (ids : List String) : Row :=
  [rawName obj, String.intercalate (";") (pySortedSet ids)]

/-- The match-identifier set computed for one record, lines 76-88: exact
entity match on the composite text, then the fuzzy fallback when the exact
match is empty and the stripped name has at least 3 characters.  `none`
models the uncaught `TypeError` that unpacking `extractOne`'s `None` result
(empty `ORDO_TERMS`) would raise. -/
def stepIds (env : Env) (obj : RecordObj) : Option (List String) :=
  let name := strippedName obj
  let txt := matchText name (pyGet obj.title) (pyGet obj.public_description)
  let ids := env.hit_ids txt
  if ids.isEmpty && decide (3 ≤ name.length) then
    match extractOne env.scorer (pyLower name) env.ordo_terms with
    | none => none
    | some (_, score) => some (if FUZZY_THRESH ≤ score then ["FUZZY"] else ids)
  else some ids

/-- The composite text handed to the entity matcher, as a function of one
record. -/
def recordText (obj : RecordObj) : String :=
  matchText (strippedName obj) (pyGet obj.title) (pyGet obj.public_description)

/-- The header row written on line 64: `["subreddit", "orpha_ids"]`. -/
def headerRow : Row := ["subreddit", "orpha_ids"]

/-- Lines 62-64: the output file is opened in `"w"` mode, so whatever it
contained before the run is discarded and it starts as just the header. -/
def openTruncateHeader (_prior : List Row) : List Row :=
  [headerRow]

/-- The mutable state of `scan`: the output file contents, the list of
append batches performed so far (instrumentation for the flush operations),
the dedup ledger `seen_hash`, the counters `total_kept` and `processed`, and
the in-memory row buffer `rows`. -/
structure ScanSt where
  file : List Row
  writes : List (List Row)
  seen_hash : List String
  total_kept : Nat
  rows : List Row
  processed : Nat
deriving DecidableEq

/-- Model of `flush(rows)` (lines 47-52): appends the buffered rows to the
output file and returns how many were written; an empty buffer writes
nothing and returns 0. -/
def flush (file : List Row) (writes : List (List Row)) (rows : List Row) :
    List Row × List (List Row) × Nat :=
  if rows.isEmpty then (file, writes, 0)
  else (file ++ rows, writes ++ [rows], rows.length)

/-- Lines 96-99: every `CHUNK` processed lines, flush the buffer, add the
written count to `total_kept` and clear the buffer. -/
def maybeFlush (chunk : Nat) (st : ScanSt) : ScanSt :=
  if st.processed % chunk == 0 then
    let t := flush st.file st.writes st.rows
    { st with file := t.1, writes := t.2.1,
              total_kept := st.total_kept + t.2.2, rows := [] }
  else st

/-- Lines 90-94: on a non-empty match set, fingerprint the raw name; if the
fingerprint is new, buffer a candidate row and record the fingerprint;
otherwise discard silently.  Also counts the processed line (line 73). -/
def recordStep (env : Env) (st : ScanSt) (obj : RecordObj)
    (ids : List String) : ScanSt :=
  if ids.isEmpty then { st with processed := st.processed + 1 }
  else
    let h := env.hash_line (rawName obj)
    if h ∈ st.seen_hash then { st with processed := st.processed + 1 }
    else
      { st with processed := st.processed + 1,
                rows := st.rows ++ [mkRow obj ids],
                seen_hash := st.seen_hash ++ [h] }

/-- Processing of one line of an archive (lines 72-99): decode it, compute
the match set, dedup and buffer, and flush at chunk boundaries.  Any raised
exception propagates as `Except.error`. -/
def stepLine (env : Env) (chunk : Nat) (st : ScanSt) (line : Line) :
    Except String ScanSt :=
  match json_loads line with
  | Except.error e => Except.error e
  | Except.ok obj =>
    match stepIds env obj with
    | none => Except.error ("TypeError: cannot unpack non-iterable NoneType")
    | some ids => Except.ok (maybeFlush chunk (recordStep env st obj ids))

/-- The inner loop over the lines of one archive (line 72). -/
def processLines (env : Env) (chunk : Nat) (st : ScanSt) :
    List Line → Except String ScanSt
  | [] => Except.ok st
  | l :: ls =>
    match stepLine env chunk st l with
    | Except.error e => Except.error e
    | Except.ok st1 => processLines env chunk st1 ls

/-- Line 101: after an archive's lines, a final `total_kept += flush(rows)`;
the source does not clear `rows` here (it is reset at the top of the next
archive iteration). -/
def finalFlush (st : ScanSt) : ScanSt :=
  let t := flush st.file st.writes st.rows
  { st with file := t.1, writes := t.2.1, total_kept := st.total_kept + t.2.2 }

/-- One iteration of the archive loop (lines 67-101): reset `rows` and
`processed` (line 69), stream the lines, then final-flush. -/
def scanArchive (env : Env) (chunk : Nat) (st : ScanSt) (lines : List Line) :
    Except String ScanSt :=
  match processLines env chunk { st with rows := [], processed := 0 } lines with
  | Except.error e => Except.error e
  | Except.ok st2 => Except.ok (finalFlush st2)

/-- The loop over all selected archives (lines 67-101): open each archive and
scan it; an exception from opening or scanning propagates uncaught. -/
def scanFiles (env : Env) (chunk : Nat) (st : ScanSt) :
    List Archive → Except String ScanSt
  | [] => Except.ok st
  | ar :: rest =>
    match open_zst ar with
    | Except.error e => Except.error e
    | Except.ok lines =>
      match scanArchive env chunk st lines with
      | Except.error e => Except.error e
      | Except.ok st1 => scanFiles env chunk st1 rest

/-- The scan state right after lines 62-66: freshly truncated output file
holding only the header, empty dedup ledger, zero counters. -/
def initState (prior : List Row) : ScanSt :=
  { file := openTruncateHeader prior, writes := [], seen_hash := [],
    total_kept := 0, rows := [], processed := 0 }

/-- Model of `scan()` (lines 54-104).  `prior` is whatever the output file
held before the run (discarded by the `"w"` open); `files` is the archive
list produced by `pick_files()`.  Returns the final state together with the
boolean `total_kept > 0` returned on line 104; `Except.error` models an
uncaught exception (including the `SystemExit` of line 60). -/
def scan (env : Env) (chunk : Nat) (prior : List Row) (files : List Archive) :
    Except String (ScanSt × Bool) :=
  if files.isEmpty then Except.error ("SystemExit: no zst files found")
  else
    match scanFiles env chunk (initState prior) files with
    | Except.error e => Except.error e
    | Except.ok st => Except.ok (st, decide (0 < st.total_kept))

/-- Model of `run_verify()` (lines 106-108): `subprocess.run(..., check=True)`
raises `CalledProcessError` when the downstream verification process fails.
The outcome of the external process is a parameter. -/
def run_verify (outcome : Except String Unit) : Except String Unit :=
  match outcome with
  | Except.ok _ => Except.ok ()
  | Except.error e => Except.error ("CalledProcessError: " ++ e)

/-- Model of the entry point (lines 112-119):
`if scan() and args.verify: run_verify()`. -/
def mainRun (env : Env) (chunk : Nat) (prior : List Row)
    (files : List Archive) (verifyFlag : Bool)
    (outcome : Except String Unit) : Except String Bool :=
  match scan env chunk prior files with
  | Except.error e => Except.error e
  | Except.ok (_, ok1) =>
    if ok1 && verifyFlag then
      match run_verify outcome with
      | Except.error e => Except.error e
      | Except.ok _ => Except.ok ok1
    else Except.ok ok1

/-- Whether a run of `scan` completed without an uncaught exception. -/
def scanCompleted (r : Except String (ScanSt × Bool)) : Bool :=
  match r with
  | Except.ok _ => true
  | Except.error _ => false

/-- Model of `normalise` from `build_ordo_vocab.py` line 38: the dash
unification `re.sub(r"[HYPHEN EN-DASH EM-DASH MINUS]", "-", txt)`. -/
def unifyDashes (s : String) : String :=
  ⟨s.data.map (fun c => if c == '‐' || c == '–' || c == '—' || c == '−' then '-' else c)⟩

/-- Model of `normalise(text)` from `build_ordo_vocab.py` lines 36-39: NFKD
Unicode normalization (abstracted as the parameter `nfkd`, since
`unicodedata` is an external library), then dash unification, then
lower-casing. -/
def normalise (nfkd : String → String) (text : String) : String :=
  pyLower (unifyDashes (nfkd text))

/-- Stand-in for `unicodedata.normalize("NFKD", s)` on the character fragment
used in this development: NFKD is the identity on ASCII characters and on the
dash code points U+2010, U+2013, U+2014 and U+2212 (none of which has a
compatibility decomposition), and every string appearing in the statements
below stays inside that fragment. -/
def nfkdFixed : String → String := fun s => s

/-- The ontology identifiers the vocabulary builder attaches to the entity
ruler, `build_ordo_vocab.py` line 114: `f"ORPHA{oid}"`. -/
def orphaId (oid : String) : String :=
  "ORPHA" ++ oid

/-- The first cell of an output row; for an emitted candidate row this is the
raw subreddit name. -/
def rowName (r : Row) : String :=
  r.headD ("")

/-- A line the scanner can process without raising: it decodes, and its
match-set computation does not abort. -/
def goodLine (env : Env) : Line → Prop
  | Line.malformed _ => False
  | Line.valid obj => stepIds env obj ≠ none

/-- The pure functional core of the scanner on a stream of lines: the list
of candidate rows it emits (in discovery order, flush boundaries erased) and
the final dedup ledger.  On a line that would raise, the emission stops;
this case is only ever used under the hypothesis that the run completed. -/
def emitLoop (env : Env) (seen : List String) : List Line → List Row × List String
  | [] => ([], seen)
  | line :: ls =>
    match json_loads line with
    | Except.error _ => ([], seen)
    | Except.ok obj =>
      match stepIds env obj with
      | none => ([], seen)
      | some ids =>
        if ids.isEmpty then emitLoop env seen ls
        else
          let h := env.hash_line (rawName obj)
          if h ∈ seen then emitLoop env seen ls
          else
            ((mkRow obj ids) :: (emitLoop env (seen ++ [h]) ls).1,
              (emitLoop env (seen ++ [h]) ls).2)

/-- The matching records carrying raw name `nm`, in discovery order: the
decodable lines whose raw name is `nm` and whose computed match set is
non-empty, paired with that match set. -/
def matchingFor (env : Env) (nm : String) (lines : List Line) :
    List (RecordObj × List String) :=
  lines.filterMap (fun l =>
    match l with
    | Line.malformed _ => none
    | Line.valid obj =>
      match stepIds env obj with
      | none => none
      | some ids =>
        if rawName obj = nm ∧ ids ≠ [] then some (obj, ids) else none)

/-- The line stream of one archive (empty for an archive that fails to
open; such an archive aborts the run anyway). -/
def archiveLines : Archive → List Line
  | Archive.ok _ lines => lines
  | Archive.openError _ _ => []

/-- The concatenated line stream of a run, in discovery order. -/
def allLines (files : List Archive) : List Line :=
  (files.map archiveLines).flatten

/-- Structural invariant of the output sink: the file is exactly the header
followed by the flushed batches in order, and `total_kept` counts its data
rows. -/
def SinkInv (st : ScanSt) : Prop :=
  st.file = headerRow :: st.writes.flatten ∧ st.file.length = st.total_kept + 1

/-- An archive stream consisting of one record per name, with no other
fields set. -/
def mkLines (names : List String) : List Line :=
  names.map (fun nm => Line.valid ⟨some nm, none, none⟩)

/-- A concrete environment whose entity matcher always reports `ORPHA1` and
whose fingerprint function is the identity; used to instantiate theorems on
concrete runs. -/
def envExact : Env :=
  { hit_ids := fun _ => ["ORPHA1"], scorer := fun _ _ => 0,
    ordo_terms := ["als"], hash_line := fun s => s }

/-- A concrete environment whose entity matcher never matches, with a
one-term catalog and an equality-based scorer; used to exercise the fuzzy
fallback on concrete inputs. -/
def envMiss : Env :=
  { hit_ids := fun _ => [], scorer := fun a b => if a == b then 100 else 0,
    ordo_terms := ["marfan"], hash_line := fun s => s }

/-- A concrete record named `r/marfan` with no title or description. -/
def objMarfan : RecordObj := ⟨some "r/marfan", none, none⟩

/-- A concrete single-archive input with two distinct names, the first of
which occurs twice. -/
def filesDup : List Archive :=
  [Archive.ok ("a")
    [Line.valid objMarfan, Line.valid ⟨some "r/other", none, none⟩,
      Line.valid objMarfan]]

/-- The final scan state on `envExact`/`filesDup` (checked by `decide` in
the witnesses below). -/
def stDup : ScanSt :=
  { file := [headerRow, ["r/marfan", "ORPHA1"], ["r/other", "ORPHA1"]],
    writes := [[["r/marfan", "ORPHA1"], ["r/other", "ORPHA1"]]],
    seen_hash := ["r/marfan", "r/other"],
    total_kept := 2,
    rows := [["r/marfan", "ORPHA1"], ["r/other", "ORPHA1"]],
    processed := 3 }

/-- Eleven distinct names: an input of size 2C+5 for chunk size C = 3. -/
def namesEleven : List String :=
  ["a", "b", "c", "d", "e", "f", "g", "h", "i", "j", "k"]

instance {ε α : Type} [DecidableEq ε] [DecidableEq α] : DecidableEq (Except ε α)
  | Except.ok a, Except.ok b =>
    if h : a = b then Decidable.isTrue (by rw [h])
    else Decidable.isFalse (by intro c; cases c; exact h rfl)
  | Except.ok _, Except.error _ => Decidable.isFalse (by intro c; cases c)
  | Except.error _, Except.ok _ => Decidable.isFalse (by intro c; cases c)
  | Except.error e, Except.error f =>
    if h : e = f then Decidable.isTrue (by rw [h])
    else Decidable.isFalse (by intro c; cases c; exact h rfl)

/-- Folding `pickBest` from an incumbent yields a result whose score bounds
the incumbent's score and every choice's score, and which is either the
incumbent or one of the choices with its own score. -/
lemma foldl_pickBest_spec (sc : String → String → Rat) (q : String) :
    ∀ (choices : List String) (bt : String) (bs : Rat),
      ∃ t s, List.foldl (pickBest sc q) (some (bt, bs)) choices = some (t, s) ∧
        bs ≤ s ∧ ((t = bt ∧ s = bs) ∨ (t ∈ choices ∧ s = sc q t)) ∧
        ∀ u ∈ choices, sc q u ≤ s := by
  intro choices
  induction choices with
  | nil =>
    intro bt bs
    exact ⟨bt, bs, rfl, le_refl bs, Or.inl ⟨rfl, rfl⟩, by simp⟩
  | cons c cs ih =>
    intro bt bs
    by_cases hlt : bs < sc q c
    · obtain ⟨t, s, h1, h2, h3, h4⟩ := ih c (sc q c)
      refine ⟨t, s, by simpa [pickBest, hlt] using h1,
        le_of_lt (lt_of_lt_of_le hlt h2), ?_, ?_⟩
      · rcases h3 with ⟨ht, hs⟩ | ⟨hm, hs⟩
        · exact Or.inr ⟨by rw [ht]; exact List.mem_cons_self _ _, by rw [hs, ht]⟩
        · exact Or.inr ⟨List.mem_cons_of_mem c hm, hs⟩
      · intro u hu
        rcases List.mem_cons.mp hu with huc | hu
        · rw [huc]; exact h2
        · exact h4 u hu
    · obtain ⟨t, s, h1, h2, h3, h4⟩ := ih bt bs
      refine ⟨t, s, by simpa [pickBest, hlt] using h1, h2, ?_, ?_⟩
      · rcases h3 with ⟨ht, hs⟩ | ⟨hm, hs⟩
        · exact Or.inl ⟨ht, hs⟩
        · exact Or.inr ⟨List.mem_cons_of_mem c hm, hs⟩
      · intro u hu
        rcases List.mem_cons.mp hu with huc | hu
        · rw [huc]; exact le_trans (le_of_not_lt hlt) h2
        · exact h4 u hu

/-- On a non-empty choice list, `extractOne` returns some choice together
with its score, and that score is maximal over all choices. -/
lemma extractOne_spec (sc : String → String → Rat) (q : String)
    (choices : List String) (h : choices ≠ []) :
    ∃ t s, extractOne sc q choices = some (t, s) ∧ t ∈ choices ∧
      s = sc q t ∧ ∀ u ∈ choices, sc q u ≤ s := by
  cases choices with
  | nil => exact absurd rfl h
  | cons c cs =>
    obtain ⟨t, s, h1, h2, h3, h4⟩ := foldl_pickBest_spec sc q cs c (sc q c)
    refine ⟨t, s, by simpa [extractOne, pickBest] using h1, ?_, ?_, ?_⟩
    · rcases h3 with ⟨ht, _⟩ | ⟨hm, _⟩
      · rw [ht]; exact List.mem_cons_self _ _
      · exact List.mem_cons_of_mem c hm
    · rcases h3 with ⟨ht, hs⟩ | ⟨_, hs⟩
      · rw [hs, ht]
      · exact hs
    · intro u hu
      rcases List.mem_cons.mp hu with huc | hu
      · rw [huc]; exact h2
      · exact h4 u hu

lemma stepIds_eq (env : Env) (obj : RecordObj) :
    stepIds env obj =
      (if (env.hit_ids (recordText obj)).isEmpty ∧ 3 ≤ (strippedName obj).length then
        match extractOne env.scorer (pyLower (strippedName obj)) env.ordo_terms with
        | none => none
        | some (_, score) =>
          some (if FUZZY_THRESH ≤ score then ["FUZZY"]
                else env.hit_ids (recordText obj))
      else some (env.hit_ids (recordText obj))) := by
  unfold stepIds recordText
  by_cases h1 : (env.hit_ids (matchText (strippedName obj) (pyGet obj.title)
      (pyGet obj.public_description))).isEmpty = true
  · by_cases h2 : 3 ≤ (strippedName obj).length
    · simp [h1, h2]
    · simp [h1, h2]
  · simp [h1]

/-- Claim C5: the fuzzy fallback is invoked only when the exact match on the
composite text is empty and the stripped name has at least the minimum
length (3 code points).  When either condition fails, the record's match set
is exactly the entity matcher's result, untouched by the fuzzy machinery:
in particular it holds for every scorer and every term catalog, including
the empty catalog on which an actual fuzzy invocation would abort. -/
theorem C5_fuzzy_gate (env : Env) (obj : RecordObj)
    (h : env.hit_ids (recordText obj) ≠ [] ∨ (strippedName obj).length < 3) :
    stepIds env obj = some (env.hit_ids (recordText obj)) := by
  rw [stepIds_eq]
  rcases h with h | h
  · have hn : ¬ ((env.hit_ids (recordText obj)).isEmpty = true ∧
        3 ≤ (strippedName obj).length) := by
      intro hc
      exact h (List.isEmpty_iff.mp hc.1)
    rw [if_neg hn]
  · have hn : ¬ ((env.hit_ids (recordText obj)).isEmpty = true ∧
        3 ≤ (strippedName obj).length) := by
      intro hc
      exact absurd hc.2 (not_le.mpr h)
    rw [if_neg hn]

/-- The fuzzy sentinel is distinct from every identifier the vocabulary
builder can attach to the entity ruler. -/
lemma orphaId_ne_sentinel (oid : String) : orphaId oid ≠ "FUZZY" := by
  intro h
  have h2 := congrArg (fun s => s.data.head?) h
  simp only [orphaId, String.data_append] at h2
  simp at h2

/-- Concrete instantiation for C5: a record whose composite text matches
exactly is never routed through the fuzzy fallback, even though the catalog
here is empty (a genuine fuzzy call would abort on it). -/
theorem C5_fuzzy_gate_witness :
    stepIds
      { hit_ids := fun _ => ["ORPHA1"], scorer := fun _ _ => 0,
        ordo_terms := [], hash_line := fun s => s }
      ⟨some "r/marfan", none, none⟩ = some ["ORPHA1"] :=
  C5_fuzzy_gate
    { hit_ids := fun _ => ["ORPHA1"], scorer := fun _ _ => 0,
      ordo_terms := [], hash_line := fun s => s }
    ⟨some "r/marfan", none, none⟩ (Or.inl (by decide))

/-- Claim C6: when the fuzzy fallback is attempted (exact match empty,
stripped name long enough, catalog non-empty so the call does not abort),
the best score over the whole term catalog decides the outcome: the record's
match set is exactly the singleton `["FUZZY"]` when that best score reaches
`FUZZY_THRESH`, and exactly the empty set otherwise; the sentinel is
distinct from every real ontology identifier, and a below-threshold record
emits no output row. -/
theorem C6_fuzzy_threshold (env : Env) (obj : RecordObj)
    (hexact : env.hit_ids (recordText obj) = [])
    (hlen : 3 ≤ (strippedName obj).length)
    (hterms : env.ordo_terms ≠ []) :
    ∃ t s,
      extractOne env.scorer (pyLower (strippedName obj)) env.ordo_terms =
        some (t, s) ∧
      t ∈ env.ordo_terms ∧
      s = env.scorer (pyLower (strippedName obj)) t ∧
      (∀ u ∈ env.ordo_terms, env.scorer (pyLower (strippedName obj)) u ≤ s) ∧
      stepIds env obj = some (if FUZZY_THRESH ≤ s then ["FUZZY"] else []) ∧
      (∀ oid, orphaId oid ≠ "FUZZY") ∧
      (s < FUZZY_THRESH →
        ∀ seen ls, emitLoop env seen (Line.valid obj :: ls) = emitLoop env seen ls) := by
  obtain ⟨t, s, h1, h2, h3, h4⟩ :=
    extractOne_spec env.scorer (pyLower (strippedName obj)) env.ordo_terms hterms
  have hids : stepIds env obj =
      some (if FUZZY_THRESH ≤ s then ["FUZZY"] else []) := by
    rw [stepIds_eq]
    have hcond : (env.hit_ids (recordText obj)).isEmpty = true ∧
        3 ≤ (strippedName obj).length := ⟨by simp [hexact], hlen⟩
    rw [if_pos hcond, h1, hexact]
  refine ⟨t, s, h1, h2, h3, h4, hids, fun oid => orphaId_ne_sentinel oid, ?_⟩
  intro hlt seen ls
  have hdrop : stepIds env obj = some [] := by
    rw [hids, if_neg (not_le.mpr hlt)]
  simp [emitLoop, json_loads, hdrop]

/-- Concrete instantiation for C6: on the one-term catalog of `envMiss` the
record `r/marfan` scores 100 against `marfan`, so it is kept with exactly
the fuzzy sentinel. -/
theorem C6_fuzzy_threshold_witness :
    ∃ t s,
      extractOne envMiss.scorer (pyLower (strippedName objMarfan)) envMiss.ordo_terms =
        some (t, s) ∧
      t ∈ envMiss.ordo_terms ∧
      s = envMiss.scorer (pyLower (strippedName objMarfan)) t ∧
      (∀ u ∈ envMiss.ordo_terms,
        envMiss.scorer (pyLower (strippedName objMarfan)) u ≤ s) ∧
      stepIds envMiss objMarfan = some (if FUZZY_THRESH ≤ s then ["FUZZY"] else []) ∧
      (∀ oid, orphaId oid ≠ "FUZZY") ∧
      (s < FUZZY_THRESH →
        ∀ seen ls,
          emitLoop envMiss seen (Line.valid objMarfan :: ls) = emitLoop envMiss seen ls) :=
  C6_fuzzy_threshold envMiss objMarfan (by decide) (by decide) (by decide)

/-- Claim C7 fails on the code: the text handed to the entity matcher is
only lower-cased (line 78 of `find_candidates.py`), while the catalog terms
were additionally NFKD-normalized and dash-unified when built
(`build_ordo_vocab.py`, lines 36-39).  On a record whose name contains an
en dash the two normalizations disagree. -/
theorem C7_counterexample :
    recordText ⟨some "a–b", none, none⟩ ≠
      normalise nfkdFixed (("a–b") ++ " " ++ ("") ++ " " ++ ("")) := by
  decide

/-- Claim C7 amended: the text handed to the entity matcher is lower-cased
but not Unicode-normalized or dash-unified; it therefore agrees with the
normalization applied when the Term Catalog was built exactly on composite
texts that NFKD and dash unification leave unchanged. -/
theorem C7_lowercase_only (nfkd : String → String) (obj : RecordObj)
    (h1 : nfkd ((strippedName obj) ++ " " ++ (pyGet obj.title) ++ " " ++
        (pyGet obj.public_description)) =
      (strippedName obj) ++ " " ++ (pyGet obj.title) ++ " " ++
        (pyGet obj.public_description))
    (h2 : unifyDashes ((strippedName obj) ++ " " ++ (pyGet obj.title) ++ " " ++
        (pyGet obj.public_description)) =
      (strippedName obj) ++ " " ++ (pyGet obj.title) ++ " " ++
        (pyGet obj.public_description)) :
    recordText obj =
      normalise nfkd ((strippedName obj) ++ " " ++ (pyGet obj.title) ++ " " ++
        (pyGet obj.public_description)) := by
  unfold recordText matchText normalise
  rw [h1, h2]

/-- Concrete instantiation for C7 amended: a dash-free ASCII record, where
the scan-side text and the catalog normalization coincide. -/
theorem C7_lowercase_only_witness :
    recordText objMarfan =
      normalise nfkdFixed ((strippedName objMarfan) ++ " " ++ (pyGet objMarfan.title) ++
        " " ++ (pyGet objMarfan.public_description)) :=
  C7_lowercase_only nfkdFixed objMarfan (by decide) (by decide)

lemma stepLine_good (env : Env) (chunk : Nat) (st : ScanSt) (l : Line)
    (st' : ScanSt) (h : stepLine env chunk st l = Except.ok st') :
    goodLine env l := by
  cases l with
  | malformed raw => simp [stepLine, json_loads] at h
  | valid obj =>
    cases hsi : stepIds env obj with
    | none => simp [stepLine, json_loads, hsi] at h
    | some ids => simp [goodLine, hsi]

lemma processLines_good (env : Env) (chunk : Nat) :
    ∀ (ls : List Line) (st st' : ScanSt),
      processLines env chunk st ls = Except.ok st' → ∀ l ∈ ls, goodLine env l := by
  intro ls
  induction ls with
  | nil => intro st st' _ l hl; exact absurd hl (List.not_mem_nil l)
  | cons l0 ls ih =>
    intro st st' h l hl
    rw [processLines] at h
    cases hsl : stepLine env chunk st l0 with
    | error e => rw [hsl] at h; exact absurd h (by simp)
    | ok st1 =>
      rw [hsl] at h
      rcases List.mem_cons.mp hl with rfl | hl
      · exact stepLine_good env chunk st l st1 hsl
      · exact ih st1 st' h l hl

lemma scanArchive_ok (env : Env) (chunk : Nat) (st : ScanSt) (lines : List Line)
    (st' : ScanSt) (h : scanArchive env chunk st lines = Except.ok st') :
    ∃ st2, processLines env chunk { st with rows := [], processed := 0 } lines =
      Except.ok st2 ∧ st' = finalFlush st2 := by
  rw [scanArchive] at h
  cases hp : processLines env chunk { st with rows := [], processed := 0 } lines with
  | error e => rw [hp] at h; exact absurd h (by simp)
  | ok st2 =>
    rw [hp] at h
    exact ⟨st2, rfl, by injection h with h2; rw [h2]⟩

lemma scanFiles_good (env : Env) (chunk : Nat) :
    ∀ (files : List Archive) (st st' : ScanSt),
      scanFiles env chunk st files = Except.ok st' →
      ∀ ar ∈ files,
        (∃ f ls, ar = Archive.ok f ls) ∧ ∀ l ∈ archiveLines ar, goodLine env l := by
  intro files
  induction files with
  | nil => intro st st' _ ar har; exact absurd har (List.not_mem_nil ar)
  | cons a0 rest ih =>
    intro st st' h ar har
    cases a0 with
    | openError f m => exact absurd h (by simp [scanFiles, open_zst])
    | ok f ls =>
      have h' : (match scanArchive env chunk st ls with
          | Except.error e => Except.error e
          | Except.ok st1 => scanFiles env chunk st1 rest) = Except.ok st' := h
      cases ha : scanArchive env chunk st ls with
      | error e => rw [ha] at h'; exact absurd h' (by simp)
      | ok st1 =>
        rw [ha] at h'
        rcases List.mem_cons.mp har with rfl | har
        · refine ⟨⟨f, ls, rfl⟩, ?_⟩
          intro l hl
          obtain ⟨st2, hp, _⟩ := scanArchive_ok env chunk st ls st1 ha
          exact processLines_good env chunk ls _ st2 hp l (by simpa [archiveLines] using hl)
        · exact ih st1 st' h' ar har

lemma scan_ok_elim (env : Env) (chunk : Nat) (prior : List Row)
    (files : List Archive) (st : ScanSt) (b : Bool)
    (h : scan env chunk prior files = Except.ok (st, b)) :
    scanFiles env chunk (initState prior) files = Except.ok st ∧
      b = decide (0 < st.total_kept) := by
  rw [scan] at h
  by_cases he : files.isEmpty
  · rw [if_pos he] at h; exact absurd h (by simp)
  · rw [if_neg he] at h
    cases hs : scanFiles env chunk (initState prior) files with
    | error e => rw [hs] at h; exact absurd h (by simp)
    | ok st0 =>
      rw [hs] at h
      injection h with h2
      injection h2 with h3 h4
      rw [← h3, ← h4]
      exact ⟨rfl, rfl⟩

/-- Claim C2 fails on the code: `scan` calls `json.loads` with no exception
handling (line 74 of `find_candidates.py`), so one malformed line aborts the
entire run; here the valid matching record after the malformed line is never
processed and the run ends with an uncaught `JSONDecodeError`. -/
theorem C2_skip_counterexample :
    scan envExact 1000000 []
        [Archive.ok ("a") [Line.malformed ("oops"), Line.valid objMarfan]] =
      Except.error ("JSONDecodeError: oops") := by
  decide

/-- Claim C2 amended: a line that fails structured-text decoding is not
skipped — it raises an uncaught decode error that aborts the whole run; a
record with missing expected fields, by contrast, does not abort the run and
is not skipped either: it is processed with empty-string defaults. -/
theorem C2_malformed_aborts :
    (∀ (env : Env) (chunk : Nat) (prior : List Row) (files : List Archive)
        (fname : String) (lines : List Line) (raw : String),
        Archive.ok fname lines ∈ files → Line.malformed raw ∈ lines →
        scanCompleted (scan env chunk prior files) = false) ∧
    (∀ env : Env, stepIds env ⟨none, none, none⟩ =
        some (env.hit_ids (matchText ("") ("") ("")))) := by
  constructor
  · intro env chunk prior files fname lines raw hmem hline
    cases hscan : scan env chunk prior files with
    | error e => rfl
    | ok p =>
      obtain ⟨st, b⟩ := p
      obtain ⟨hs, _⟩ := scan_ok_elim env chunk prior files st b hscan
      have hg := scanFiles_good env chunk files (initState prior) st hs
        (Archive.ok fname lines) hmem
      have := hg.2 (Line.malformed raw) (by simpa [archiveLines] using hline)
      exact absurd this (by simp [goodLine])
  · intro env
    rw [stepIds_eq]
    have hn : ¬ ((env.hit_ids (recordText ⟨none, none, none⟩)).isEmpty = true ∧
        3 ≤ (strippedName (⟨none, none, none⟩ : RecordObj)).length) := by
      intro hc
      exact absurd hc.2 (by decide)
    rw [if_neg hn]
    rw [show recordText ⟨none, none, none⟩ = matchText ("") ("") ("") from by decide]

/-- Concrete instantiation for C2 amended: a malformed line in an opened
archive leaves the run uncompleted, and a record with every field missing is
processed into the (empty-composite) exact-match result rather than being
skipped. -/
theorem C2_malformed_aborts_witness :
    scanCompleted (scan envExact 1000000 []
        [Archive.ok ("a") [Line.malformed ("oops"), Line.valid objMarfan]]) = false ∧
    stepIds envExact ⟨none, none, none⟩ =
      some (envExact.hit_ids (matchText ("") ("") (""))) :=
  ⟨C2_malformed_aborts.1 envExact 1000000 []
      [Archive.ok ("a") [Line.malformed ("oops"), Line.valid objMarfan]]
      ("a") [Line.malformed ("oops"), Line.valid objMarfan] ("oops")
      (by decide) (by decide),
    C2_malformed_aborts.2 envExact⟩

/-- Claim C3 fails on the code: the archive loop has no exception handling
around `open_zst` (lines 67-72 of `find_candidates.py`), so an archive that
fails to open aborts the run with an uncaught error; the second, perfectly
readable archive here is never scanned. -/
theorem C3_skip_counterexample :
    scan envExact 1000000 []
        [Archive.openError ("b") ("boom"), Archive.ok ("a") [Line.valid objMarfan]] =
      Except.error ("ZstdError: boom") := by
  decide

/-- Claim C3 amended: an archive-level failure (open or decompression
error) is not logged-and-skipped — it propagates as an uncaught error that
aborts the whole run. -/
theorem C3_open_failure_aborts (env : Env) (chunk : Nat) (prior : List Row)
    (files : List Archive) (fname msg : String)
    (h : Archive.openError fname msg ∈ files) :
    scanCompleted (scan env chunk prior files) = false := by
  cases hscan : scan env chunk prior files with
  | error e => rfl
  | ok p =>
    obtain ⟨st, b⟩ := p
    obtain ⟨hs, _⟩ := scan_ok_elim env chunk prior files st b hscan
    have hg := scanFiles_good env chunk files (initState prior) st hs
      (Archive.openError fname msg) h
    obtain ⟨f, ls, hfl⟩ := hg.1
    exact absurd hfl (by simp)

/-- Concrete instantiation for C3 amended: a run whose only archive fails to
open does not complete. -/
theorem C3_open_failure_aborts_witness :
    scanCompleted (scan envExact 1000000 []
        [Archive.openError ("b") ("boom")]) = false :=
  C3_open_failure_aborts envExact 1000000 []
    [Archive.openError ("b") ("boom")] ("b") ("boom") (by decide)

lemma tail_append_ne {α : Type} (l1 l2 : List α) (h : l1 ≠ []) :
    (l1 ++ l2).tail = l1.tail ++ l2 := by
  cases l1 with
  | nil => exact absurd rfl h
  | cons a t => rfl

lemma head_append_ne {α : Type} (l1 l2 : List α) (h : l1 ≠ []) :
    (l1 ++ l2).head? = l1.head? := by
  cases l1 with
  | nil => exact absurd rfl h
  | cons a t => rfl

lemma append_ne_nil_left {α : Type} (l1 l2 : List α) (h : l1 ≠ []) :
    l1 ++ l2 ≠ [] := by
  cases l1 with
  | nil => exact absurd rfl h
  | cons a t => simp

lemma maybeFlush_parts (chunk : Nat) (st : ScanSt) (hne : st.file ≠ []) :
    (maybeFlush chunk st).file.tail ++ (maybeFlush chunk st).rows =
      st.file.tail ++ st.rows ∧
    (maybeFlush chunk st).seen_hash = st.seen_hash ∧
    (maybeFlush chunk st).file ≠ [] ∧
    (maybeFlush chunk st).file.head? = st.file.head? := by
  unfold maybeFlush flush
  by_cases hc : (st.processed % chunk == 0) = true
  · rw [if_pos hc]
    by_cases hr : st.rows.isEmpty = true
    · have h0 : st.rows = [] := List.isEmpty_iff.mp hr
      rw [if_pos hr]
      simp [h0, hne]
    · rw [if_neg hr]
      exact ⟨by simp [tail_append_ne st.file st.rows hne],
        rfl, by simp [append_ne_nil_left st.file st.rows hne],
        by simp [head_append_ne st.file st.rows hne]⟩
  · rw [if_neg hc]
    exact ⟨rfl, rfl, hne, rfl⟩

lemma recordStep_empty (env : Env) (st : ScanSt) (obj : RecordObj)
    (ids : List String) (h : ids.isEmpty = true) :
    recordStep env st obj ids = { st with processed := st.processed + 1 } := by
  unfold recordStep
  rw [if_pos h]

lemma recordStep_seenMem (env : Env) (st : ScanSt) (obj : RecordObj)
    (ids : List String) (h : ids.isEmpty = false)
    (hm : env.hash_line (rawName obj) ∈ st.seen_hash) :
    recordStep env st obj ids = { st with processed := st.processed + 1 } := by
  unfold recordStep
  rw [if_neg (by simp [h]), if_pos hm]

lemma recordStep_fresh (env : Env) (st : ScanSt) (obj : RecordObj)
    (ids : List String) (h : ids.isEmpty = false)
    (hm : env.hash_line (rawName obj) ∉ st.seen_hash) :
    recordStep env st obj ids =
      { st with processed := st.processed + 1,
                rows := st.rows ++ [mkRow obj ids],
                seen_hash := st.seen_hash ++ [env.hash_line (rawName obj)] } := by
  unfold recordStep
  rw [if_neg (by simp [h]), if_neg hm]

lemma stepLine_some (env : Env) (chunk : Nat) (st : ScanSt) (obj : RecordObj)
    (ids : List String) (hsi : stepIds env obj = some ids) :
    stepLine env chunk st (Line.valid obj) =
      Except.ok (maybeFlush chunk (recordStep env st obj ids)) := by
  simp [stepLine, json_loads, hsi]

lemma emitLoop_valid_empty (env : Env) (seen : List String) (obj : RecordObj)
    (ls : List Line) (ids : List String) (hsi : stepIds env obj = some ids)
    (hemp : ids.isEmpty = true) :
    emitLoop env seen (Line.valid obj :: ls) = emitLoop env seen ls := by
  simp [emitLoop, json_loads, hsi, hemp]

lemma emitLoop_valid_seen (env : Env) (seen : List String) (obj : RecordObj)
    (ls : List Line) (ids : List String) (hsi : stepIds env obj = some ids)
    (hemp : ids.isEmpty = false) (hm : env.hash_line (rawName obj) ∈ seen) :
    emitLoop env seen (Line.valid obj :: ls) = emitLoop env seen ls := by
  simp [emitLoop, json_loads, hsi, hemp, hm]

lemma emitLoop_valid_fresh (env : Env) (seen : List String) (obj : RecordObj)
    (ls : List Line) (ids : List String) (hsi : stepIds env obj = some ids)
    (hemp : ids.isEmpty = false) (hm : env.hash_line (rawName obj) ∉ seen) :
    emitLoop env seen (Line.valid obj :: ls) =
      ((mkRow obj ids) ::
          (emitLoop env (seen ++ [env.hash_line (rawName obj)]) ls).1,
        (emitLoop env (seen ++ [env.hash_line (rawName obj)]) ls).2) := by
  simp [emitLoop, json_loads, hsi, hemp, hm]

lemma processLines_emit (env : Env) (chunk : Nat) :
    ∀ (ls : List Line) (st st' : ScanSt),
      processLines env chunk st ls = Except.ok st' → st.file ≠ [] →
      st'.file.tail ++ st'.rows =
        st.file.tail ++ st.rows ++ (emitLoop env st.seen_hash ls).1 ∧
      st'.seen_hash = (emitLoop env st.seen_hash ls).2 ∧
      st'.file ≠ [] ∧ st'.file.head? = st.file.head? := by
  intro ls
  induction ls with
  | nil =>
    intro st st' h hne
    have hst : st = st' := by
      have h' : (Except.ok st : Except String ScanSt) = Except.ok st' := h
      injection h'
    subst hst
    exact ⟨by simp [emitLoop], by simp [emitLoop], hne, rfl⟩
  | cons l0 ls ih =>
    intro st st' h hne
    cases l0 with
    | malformed raw => exact absurd h (by simp [processLines, stepLine, json_loads])
    | valid obj =>
      cases hsi : stepIds env obj with
      | none => exact absurd h (by simp [processLines, stepLine, json_loads, hsi])
      | some ids =>
        have hpl : processLines env chunk
            (maybeFlush chunk (recordStep env st obj ids)) ls = Except.ok st' := by
          rw [processLines, stepLine_some env chunk st obj ids hsi] at h
          exact h
        by_cases hemp : ids.isEmpty = true
        · have hrs := recordStep_empty env st obj ids hemp
          have hmf := maybeFlush_parts chunk (recordStep env st obj ids)
            (by rw [hrs]; exact hne)
          obtain ⟨ih1, ih2, ih3, ih4⟩ := ih _ st' hpl hmf.2.2.1
          rw [emitLoop_valid_empty env st.seen_hash obj ls ids hsi hemp]
          refine ⟨?_, ?_, ih3, ?_⟩
          · rw [ih1, hmf.1, hmf.2.1, hrs]
          · rw [ih2, hmf.2.1, hrs]
          · rw [ih4, hmf.2.2.2, hrs]
        · have hemp' : ids.isEmpty = false := by
            cases hb : ids.isEmpty
            · rfl
            · exact absurd hb hemp
          by_cases hm : env.hash_line (rawName obj) ∈ st.seen_hash
          · have hrs := recordStep_seenMem env st obj ids hemp' hm
            have hmf := maybeFlush_parts chunk (recordStep env st obj ids)
              (by rw [hrs]; exact hne)
            obtain ⟨ih1, ih2, ih3, ih4⟩ := ih _ st' hpl hmf.2.2.1
            rw [emitLoop_valid_seen env st.seen_hash obj ls ids hsi hemp' hm]
            refine ⟨?_, ?_, ih3, ?_⟩
            · rw [ih1, hmf.1, hmf.2.1, hrs]
            · rw [ih2, hmf.2.1, hrs]
            · rw [ih4, hmf.2.2.2, hrs]
          · have hrs := recordStep_fresh env st obj ids hemp' hm
            have hmf := maybeFlush_parts chunk (recordStep env st obj ids)
              (by rw [hrs]; exact hne)
            obtain ⟨ih1, ih2, ih3, ih4⟩ := ih _ st' hpl hmf.2.2.1
            rw [emitLoop_valid_fresh env st.seen_hash obj ls ids hsi hemp' hm]
            refine ⟨?_, ?_, ih3, ?_⟩
            · rw [ih1, hmf.1, hmf.2.1, hrs]
              simp
            · rw [ih2, hmf.2.1, hrs]
            · rw [ih4, hmf.2.2.2, hrs]

lemma finalFlush_parts (st : ScanSt) (hne : st.file ≠ []) :
    (finalFlush st).file.tail = st.file.tail ++ st.rows ∧
    (finalFlush st).seen_hash = st.seen_hash ∧
    (finalFlush st).file ≠ [] ∧
    (finalFlush st).file.head? = st.file.head? := by
  unfold finalFlush flush
  by_cases hr : st.rows.isEmpty = true
  · have h0 : st.rows = [] := List.isEmpty_iff.mp hr
    rw [if_pos hr]
    simp [h0, hne]
  · rw [if_neg hr]
    exact ⟨by simp [tail_append_ne st.file st.rows hne], rfl,
      by simp [append_ne_nil_left st.file st.rows hne],
      by simp [head_append_ne st.file st.rows hne]⟩

lemma scanArchive_emit (env : Env) (chunk : Nat) (st : ScanSt)
    (lines : List Line) (st' : ScanSt)
    (h : scanArchive env chunk st lines = Except.ok st') (hne : st.file ≠ []) :
    st'.file.tail = st.file.tail ++ (emitLoop env st.seen_hash lines).1 ∧
    st'.seen_hash = (emitLoop env st.seen_hash lines).2 ∧
    st'.file ≠ [] ∧ st'.file.head? = st.file.head? := by
  obtain ⟨st2, hp, hff⟩ := scanArchive_ok env chunk st lines st' h
  obtain ⟨h1, h2, h3, h4⟩ := processLines_emit env chunk lines _ st2 hp
    (show ({ st with rows := [], processed := 0 } : ScanSt).file ≠ [] from hne)
  have hfp := finalFlush_parts st2 h3
  refine ⟨?_, ?_, ?_, ?_⟩
  · rw [hff, hfp.1, h1]
    simp
  · rw [hff, hfp.2.1, h2]
  · rw [hff]
    exact hfp.2.2.1
  · rw [hff, hfp.2.2.2, h4]

lemma emitLoop_append (env : Env) :
    ∀ (ls1 ls2 : List Line) (seen : List String),
      (∀ l ∈ ls1, goodLine env l) →
      emitLoop env seen (ls1 ++ ls2) =
        ((emitLoop env seen ls1).1 ++
            (emitLoop env (emitLoop env seen ls1).2 ls2).1,
          (emitLoop env (emitLoop env seen ls1).2 ls2).2) := by
  intro ls1
  induction ls1 with
  | nil => intro ls2 seen _; simp [emitLoop]
  | cons l0 ls ih =>
    intro ls2 seen hg
    cases l0 with
    | malformed raw =>
      exact absurd (hg _ (List.mem_cons_self _ _)) (by simp [goodLine])
    | valid obj =>
      have hgood := hg _ (List.mem_cons_self _ _)
      cases hsi : stepIds env obj with
      | none => exact absurd hsi (by simpa [goodLine] using hgood)
      | some ids =>
        have hg' : ∀ l ∈ ls, goodLine env l :=
          fun l hl => hg l (List.mem_cons_of_mem _ hl)
        by_cases hemp : ids.isEmpty = true
        · rw [List.cons_append,
            emitLoop_valid_empty env seen obj (ls ++ ls2) ids hsi hemp,
            emitLoop_valid_empty env seen obj ls ids hsi hemp,
            ih ls2 seen hg']
        · have hemp' : ids.isEmpty = false := by
            cases hb : ids.isEmpty
            · rfl
            · exact absurd hb hemp
          by_cases hm : env.hash_line (rawName obj) ∈ seen
          · rw [List.cons_append,
              emitLoop_valid_seen env seen obj (ls ++ ls2) ids hsi hemp' hm,
              emitLoop_valid_seen env seen obj ls ids hsi hemp' hm,
              ih ls2 seen hg']
          · rw [List.cons_append,
              emitLoop_valid_fresh env seen obj (ls ++ ls2) ids hsi hemp' hm,
              emitLoop_valid_fresh env seen obj ls ids hsi hemp' hm,
              ih ls2 (seen ++ [env.hash_line (rawName obj)]) hg']
            simp

lemma scanFiles_emit (env : Env) (chunk : Nat) :
    ∀ (files : List Archive) (st st' : ScanSt),
      scanFiles env chunk st files = Except.ok st' → st.file ≠ [] →
      st'.file.tail =
        st.file.tail ++ (emitLoop env st.seen_hash (allLines files)).1 ∧
      st'.seen_hash = (emitLoop env st.seen_hash (allLines files)).2 ∧
      st'.file ≠ [] ∧ st'.file.head? = st.file.head? := by
  intro files
  induction files with
  | nil =>
    intro st st' h hne
    have hst : st = st' := by
      have h' : (Except.ok st : Except String ScanSt) = Except.ok st' := h
      injection h'
    subst hst
    exact ⟨by simp [allLines, emitLoop], by simp [allLines, emitLoop], hne, rfl⟩
  | cons a0 rest ih =>
    intro st st' h hne
    cases a0 with
    | openError f m => exact absurd h (by simp [scanFiles, open_zst])
    | ok f ls =>
      have h' : (match scanArchive env chunk st ls with
          | Except.error e => Except.error e
          | Except.ok st1 => scanFiles env chunk st1 rest) = Except.ok st' := h
      cases ha : scanArchive env chunk st ls with
      | error e => rw [ha] at h'; exact absurd h' (by simp)
      | ok st1 =>
        rw [ha] at h'
        have hrest : scanFiles env chunk st1 rest = Except.ok st' := h'
        obtain ⟨a1, a2, a3, a4⟩ := scanArchive_emit env chunk st ls st1 ha hne
        obtain ⟨r1, r2, r3, r4⟩ := ih st1 st' hrest a3
        have hgood : ∀ l ∈ ls, goodLine env l := by
          obtain ⟨st2, hp, _⟩ := scanArchive_ok env chunk st ls st1 ha
          exact fun l hl => processLines_good env chunk ls _ st2 hp l hl
        have happ := emitLoop_append env ls (allLines rest) st.seen_hash hgood
        have happ1 : (emitLoop env st.seen_hash (ls ++ allLines rest)).1 =
            (emitLoop env st.seen_hash ls).1 ++
              (emitLoop env (emitLoop env st.seen_hash ls).2 (allLines rest)).1 := by
          rw [happ]
        have happ2 : (emitLoop env st.seen_hash (ls ++ allLines rest)).2 =
            (emitLoop env (emitLoop env st.seen_hash ls).2 (allLines rest)).2 := by
          rw [happ]
        have hall : allLines (Archive.ok f ls :: rest) = ls ++ allLines rest := by
          simp [allLines, archiveLines]
        rw [hall]
        refine ⟨?_, ?_, r3, ?_⟩
        · rw [happ1, r1, a1, a2, List.append_assoc]
        · rw [happ2, r2, a2]
        · rw [r4, a4]

lemma recordStep_sink (env : Env) (st : ScanSt) (obj : RecordObj)
    (ids : List String) :
    (recordStep env st obj ids).file = st.file ∧
    (recordStep env st obj ids).writes = st.writes ∧
    (recordStep env st obj ids).total_kept = st.total_kept := by
  by_cases hemp : ids.isEmpty = true
  · rw [recordStep_empty env st obj ids hemp]
    exact ⟨rfl, rfl, rfl⟩
  · have hemp' : ids.isEmpty = false := by
      cases hb : ids.isEmpty
      · rfl
      · exact absurd hb hemp
    by_cases hm : env.hash_line (rawName obj) ∈ st.seen_hash
    · rw [recordStep_seenMem env st obj ids hemp' hm]
      exact ⟨rfl, rfl, rfl⟩
    · rw [recordStep_fresh env st obj ids hemp' hm]
      exact ⟨rfl, rfl, rfl⟩

lemma sinkInv_maybeFlush (chunk : Nat) (st : ScanSt) (h : SinkInv st) :
    SinkInv (maybeFlush chunk st) := by
  obtain ⟨h1, h2⟩ := h
  unfold maybeFlush flush
  by_cases hc : (st.processed % chunk == 0) = true
  · rw [if_pos hc]
    by_cases hr : st.rows.isEmpty = true
    · rw [if_pos hr]
      exact ⟨h1, h2⟩
    · rw [if_neg hr]
      constructor
      · show st.file ++ st.rows = headerRow :: (st.writes ++ [st.rows]).flatten
        rw [h1]
        simp
      · show (st.file ++ st.rows).length = st.total_kept + st.rows.length + 1
        rw [List.length_append, h2]
        omega
  · rw [if_neg hc]
    exact ⟨h1, h2⟩

lemma sinkInv_finalFlush (st : ScanSt) (h : SinkInv st) :
    SinkInv (finalFlush st) := by
  obtain ⟨h1, h2⟩ := h
  unfold finalFlush flush
  by_cases hr : st.rows.isEmpty = true
  · rw [if_pos hr]
    exact ⟨h1, h2⟩
  · rw [if_neg hr]
    constructor
    · show st.file ++ st.rows = headerRow :: (st.writes ++ [st.rows]).flatten
      rw [h1]
      simp
    · show (st.file ++ st.rows).length = st.total_kept + st.rows.length + 1
      rw [List.length_append, h2]
      omega

lemma sinkInv_processLines (env : Env) (chunk : Nat) :
    ∀ (ls : List Line) (st st' : ScanSt),
      processLines env chunk st ls = Except.ok st' → SinkInv st → SinkInv st' := by
  intro ls
  induction ls with
  | nil =>
    intro st st' h hs
    have hst : st = st' := by
      have h' : (Except.ok st : Except String ScanSt) = Except.ok st' := h
      injection h'
    rw [← hst]
    exact hs
  | cons l0 ls ih =>
    intro st st' h hs
    cases l0 with
    | malformed raw => exact absurd h (by simp [processLines, stepLine, json_loads])
    | valid obj =>
      cases hsi : stepIds env obj with
      | none => exact absurd h (by simp [processLines, stepLine, json_loads, hsi])
      | some ids =>
        have hpl : processLines env chunk
            (maybeFlush chunk (recordStep env st obj ids)) ls = Except.ok st' := by
          rw [processLines, stepLine_some env chunk st obj ids hsi] at h
          exact h
        refine ih _ st' hpl (sinkInv_maybeFlush chunk _ ?_)
        obtain ⟨s1, s2, s3⟩ := recordStep_sink env st obj ids
        exact ⟨by rw [s1, s2]; exact hs.1, by rw [s1, s3]; exact hs.2⟩

lemma sinkInv_scanFiles (env : Env) (chunk : Nat) :
    ∀ (files : List Archive) (st st' : ScanSt),
      scanFiles env chunk st files = Except.ok st' → SinkInv st → SinkInv st' := by
  intro files
  induction files with
  | nil =>
    intro st st' h hs
    have hst : st = st' := by
      have h' : (Except.ok st : Except String ScanSt) = Except.ok st' := h
      injection h'
    rw [← hst]
    exact hs
  | cons a0 rest ih =>
    intro st st' h hs
    cases a0 with
    | openError f m => exact absurd h (by simp [scanFiles, open_zst])
    | ok f ls =>
      have h' : (match scanArchive env chunk st ls with
          | Except.error e => Except.error e
          | Except.ok st1 => scanFiles env chunk st1 rest) = Except.ok st' := h
      cases ha : scanArchive env chunk st ls with
      | error e => rw [ha] at h'; exact absurd h' (by simp)
      | ok st1 =>
        rw [ha] at h'
        have hrest : scanFiles env chunk st1 rest = Except.ok st' := h'
        obtain ⟨st2, hp, hff⟩ := scanArchive_ok env chunk st ls st1 ha
        have hs2 : SinkInv st2 :=
          sinkInv_processLines env chunk ls _ st2 hp ⟨hs.1, hs.2⟩
        refine ih st1 st' hrest ?_
        rw [hff]
        exact sinkInv_finalFlush st2 hs2

lemma scan_emit (env : Env) (chunk : Nat) (prior : List Row)
    (files : List Archive) (st : ScanSt) (b : Bool)
    (h : scan env chunk prior files = Except.ok (st, b)) :
    st.file = headerRow :: (emitLoop env [] (allLines files)).1 ∧
    st.seen_hash = (emitLoop env [] (allLines files)).2 ∧
    SinkInv st ∧
    b = decide (0 < st.total_kept) ∧
    (∀ l ∈ allLines files, goodLine env l) := by
  obtain ⟨hs, hb⟩ := scan_ok_elim env chunk prior files st b h
  have hne : (initState prior).file ≠ [] := by simp [initState, openTruncateHeader]
  obtain ⟨e1, e2, e3, e4⟩ := scanFiles_emit env chunk files (initState prior) st hs hne
  have hseen : (initState prior).seen_hash = [] := rfl
  refine ⟨?_, ?_, ?_, hb, ?_⟩
  · have hh : st.file.head? = some headerRow := by
      rw [e4]
      rfl
    have ht : st.file.tail = (emitLoop env [] (allLines files)).1 := by
      rw [e1, hseen]
      rfl
    cases hf : st.file with
    | nil => exact absurd hf e3
    | cons a t =>
      rw [hf] at hh ht
      injection hh with hh2
      simp at ht
      rw [← hh2, ht]
  · rw [e2, hseen]
  · refine sinkInv_scanFiles env chunk files (initState prior) st hs ?_
    constructor
    · rfl
    · rfl
  · intro l hl
    have : ∃ ar ∈ files, l ∈ archiveLines ar := by
      simpa [allLines, List.mem_flatten] using hl
    obtain ⟨ar, har, hla⟩ := this
    exact (scanFiles_good env chunk files (initState prior) st hs ar har).2 l hla

lemma rowName_mkRow (obj : RecordObj) (ids : List String) :
    rowName (mkRow obj ids) = rawName obj := rfl

lemma isEmpty_false_ne_nil {l : List String} (h : l.isEmpty = false) : l ≠ [] := by
  intro h0
  rw [h0] at h
  exact absurd h (by simp)

lemma emitLoop_rows_shape (env : Env) :
    ∀ (ls : List Line) (seen : List String) (r : Row),
      r ∈ (emitLoop env seen ls).1 →
      ∃ obj ids, stepIds env obj = some ids ∧ ids ≠ [] ∧ r = mkRow obj ids := by
  intro ls
  induction ls with
  | nil => intro seen r hr; exact absurd hr (by simp [emitLoop])
  | cons l0 ls ih =>
    intro seen r hr
    cases l0 with
    | malformed raw => exact absurd hr (by simp [emitLoop, json_loads])
    | valid obj =>
      cases hsi : stepIds env obj with
      | none => exact absurd hr (by simp [emitLoop, json_loads, hsi])
      | some ids =>
        by_cases hemp : ids.isEmpty = true
        · rw [emitLoop_valid_empty env seen obj ls ids hsi hemp] at hr
          exact ih seen r hr
        · have hemp' : ids.isEmpty = false := by
            cases hb : ids.isEmpty
            · rfl
            · exact absurd hb hemp
          by_cases hm : env.hash_line (rawName obj) ∈ seen
          · rw [emitLoop_valid_seen env seen obj ls ids hsi hemp' hm] at hr
            exact ih seen r hr
          · rw [emitLoop_valid_fresh env seen obj ls ids hsi hemp' hm] at hr
            rcases List.mem_cons.mp (by simpa using hr) with hre | hre
            · exact ⟨obj, ids, hsi, isEmpty_false_ne_nil hemp', hre⟩
            · exact ih _ r hre

lemma emitLoop_hash_nodup (env : Env) :
    ∀ (ls : List Line) (seen : List String),
      (((emitLoop env seen ls).1.map rowName).map env.hash_line).Nodup ∧
      ∀ x ∈ ((emitLoop env seen ls).1.map rowName).map env.hash_line, x ∉ seen := by
  intro ls
  induction ls with
  | nil => intro seen; simp [emitLoop]
  | cons l0 ls ih =>
    intro seen
    cases l0 with
    | malformed raw => simp [emitLoop, json_loads]
    | valid obj =>
      cases hsi : stepIds env obj with
      | none => simp [emitLoop, json_loads, hsi]
      | some ids =>
        by_cases hemp : ids.isEmpty = true
        · rw [emitLoop_valid_empty env seen obj ls ids hsi hemp]
          exact ih seen
        · have hemp' : ids.isEmpty = false := by
            cases hb : ids.isEmpty
            · rfl
            · exact absurd hb hemp
          by_cases hm : env.hash_line (rawName obj) ∈ seen
          · rw [emitLoop_valid_seen env seen obj ls ids hsi hemp' hm]
            exact ih seen
          · rw [emitLoop_valid_fresh env seen obj ls ids hsi hemp' hm]
            obtain ⟨ihn, ihc⟩ := ih (seen ++ [env.hash_line (rawName obj)])
            constructor
            · simp only [List.map_cons, rowName_mkRow]
              refine List.Pairwise.cons ?_ ihn
              intro x hx h0
              have := ihc x hx
              rw [← h0] at this
              exact this (by simp)
            · intro x hx hxs
              have hx' : x ∈ List.map env.hash_line (List.map rowName
                  (mkRow obj ids ::
                    (emitLoop env (seen ++ [env.hash_line (rawName obj)]) ls).1)) := hx
              rw [List.map_cons, List.map_cons, rowName_mkRow] at hx'
              rcases List.mem_cons.mp hx' with hre | hre
              · rw [hre] at hxs
                exact hm hxs
              · exact ihc x hre (by simp [hxs])

lemma emitLoop_no_row_when_seen (env : Env) (nm : String) :
    ∀ (ls : List Line) (seen : List String),
      env.hash_line nm ∈ seen →
      ∀ r ∈ (emitLoop env seen ls).1, rowName r ≠ nm := by
  intro ls
  induction ls with
  | nil => intro seen _ r hr; exact absurd hr (by simp [emitLoop])
  | cons l0 ls ih =>
    intro seen hnm r hr
    cases l0 with
    | malformed raw => exact absurd hr (by simp [emitLoop, json_loads])
    | valid obj =>
      cases hsi : stepIds env obj with
      | none => exact absurd hr (by simp [emitLoop, json_loads, hsi])
      | some ids =>
        by_cases hemp : ids.isEmpty = true
        · rw [emitLoop_valid_empty env seen obj ls ids hsi hemp] at hr
          exact ih seen hnm r hr
        · have hemp' : ids.isEmpty = false := by
            cases hb : ids.isEmpty
            · rfl
            · exact absurd hb hemp
          by_cases hm : env.hash_line (rawName obj) ∈ seen
          · rw [emitLoop_valid_seen env seen obj ls ids hsi hemp' hm] at hr
            exact ih seen hnm r hr
          · rw [emitLoop_valid_fresh env seen obj ls ids hsi hemp' hm] at hr
            rcases List.mem_cons.mp (by simpa using hr) with hre | hre
            · rw [hre, rowName_mkRow]
              intro h0
              rw [h0] at hm
              exact hm hnm
            · exact ih (seen ++ [env.hash_line (rawName obj)])
                (by simp [hnm]) r hre

lemma matchingFor_cons_valid (env : Env) (nm : String) (obj : RecordObj)
    (ls : List Line) (ids : List String) (hsi : stepIds env obj = some ids) :
    matchingFor env nm (Line.valid obj :: ls) =
      (if rawName obj = nm ∧ ids ≠ [] then (obj, ids) :: matchingFor env nm ls
        else matchingFor env nm ls) := by
  by_cases hc : rawName obj = nm ∧ ids ≠ []
  · rw [if_pos hc]
    simp [matchingFor, List.filterMap_cons, hsi, hc]
  · rw [if_neg hc]
    simp [matchingFor, List.filterMap_cons, hsi, hc]

lemma emitLoop_filter_first (env : Env) (nm : String)
    (hinj : Function.Injective env.hash_line) :
    ∀ (ls : List Line) (seen : List String),
      (∀ l ∈ ls, goodLine env l) →
      env.hash_line nm ∉ seen →
      (emitLoop env seen ls).1.filter (fun r => rowName r == nm) =
        ((matchingFor env nm ls).head?.map (fun p => mkRow p.1 p.2)).toList := by
  intro ls
  induction ls with
  | nil => intro seen _ _; simp [emitLoop, matchingFor]
  | cons l0 ls ih =>
    intro seen hg hnm
    cases l0 with
    | malformed raw =>
      exact absurd (hg _ (List.mem_cons_self _ _)) (by simp [goodLine])
    | valid obj =>
      have hgood := hg _ (List.mem_cons_self _ _)
      cases hsi : stepIds env obj with
      | none => exact absurd hsi (by simpa [goodLine] using hgood)
      | some ids =>
        have hg' : ∀ l ∈ ls, goodLine env l :=
          fun l hl => hg l (List.mem_cons_of_mem _ hl)
        rw [matchingFor_cons_valid env nm obj ls ids hsi]
        by_cases hemp : ids.isEmpty = true
        · have hids : ids = [] := List.isEmpty_iff.mp hemp
          rw [emitLoop_valid_empty env seen obj ls ids hsi hemp,
            if_neg (by simp [hids])]
          exact ih seen hg' hnm
        · have hemp' : ids.isEmpty = false := by
            cases hb : ids.isEmpty
            · rfl
            · exact absurd hb hemp
          have hne : ids ≠ [] := isEmpty_false_ne_nil hemp'
          by_cases hraw : rawName obj = nm
          · have hm : env.hash_line (rawName obj) ∉ seen := by
              rw [hraw]; exact hnm
            rw [emitLoop_valid_fresh env seen obj ls ids hsi hemp' hm,
              if_pos ⟨hraw, hne⟩]
            have hrest : ∀ r ∈ (emitLoop env
                (seen ++ [env.hash_line (rawName obj)]) ls).1, rowName r ≠ nm :=
              emitLoop_no_row_when_seen env nm ls _ (by simp [hraw])
            have hfr : (emitLoop env (seen ++ [env.hash_line (rawName obj)]) ls).1.filter
                (fun r => rowName r == nm) = [] := by
              rw [List.filter_eq_nil_iff]
              intro r hr
              simp [hrest r hr]
            rw [hraw] at hfr
            simp [rowName_mkRow, hraw, hfr]
          · rw [if_neg (by simp [hraw])]
            by_cases hm : env.hash_line (rawName obj) ∈ seen
            · rw [emitLoop_valid_seen env seen obj ls ids hsi hemp' hm]
              exact ih seen hg' hnm
            · rw [emitLoop_valid_fresh env seen obj ls ids hsi hemp' hm]
              have hnm' : env.hash_line nm ∉
                  seen ++ [env.hash_line (rawName obj)] := by
                intro hx
                rcases List.mem_append.mp hx with hx | hx
                · exact hnm hx
                · have hx2 : env.hash_line nm = env.hash_line (rawName obj) := by
                    simpa using hx
                  exact hraw (hinj hx2).symm
              have := ih (seen ++ [env.hash_line (rawName obj)]) hg' hnm'
              simpa [rowName_mkRow, hraw] using this

lemma lexLt_asymm : ∀ as bs, lexLt as bs = true → lexLt bs as = false := by
  intro as
  induction as with
  | nil =>
    intro bs h
    cases bs with
    | nil => exact absurd h (by simp [lexLt])
    | cons b bs => rfl
  | cons a as ih =>
    intro bs h
    cases bs with
    | nil => exact absurd h (by simp [lexLt])
    | cons b bs =>
      by_cases hab : a.toNat < b.toNat
      · have hba : ¬ b.toNat < a.toNat := Nat.lt_asymm hab
        simp [lexLt, hab, hba]
      · by_cases hba : b.toNat < a.toNat
        · exact absurd h (by simp [lexLt, hab, hba])
        · have h' : lexLt as bs = true := by simpa [lexLt, hab, hba] using h
          simp [lexLt, hab, hba, ih bs h']

lemma lexLt_connex : ∀ as bs, lexLt as bs = false → lexLt bs as = false →
    as = bs := by
  intro as
  induction as with
  | nil =>
    intro bs h1 _
    cases bs with
    | nil => rfl
    | cons b bs => exact absurd h1 (by simp [lexLt])
  | cons a as ih =>
    intro bs h1 h2
    cases bs with
    | nil => exact absurd h2 (by simp [lexLt])
    | cons b bs =>
      by_cases hab : a.toNat < b.toNat
      · exact absurd h1 (by simp [lexLt, hab])
      · by_cases hba : b.toNat < a.toNat
        · exact absurd h2 (by simp [lexLt, hba, Nat.lt_asymm hba])
        · have hco : a = b := by
            refine Char.ext (UInt32.ext ?_)
            exact Nat.le_antisymm (Nat.le_of_not_lt hba) (Nat.le_of_not_lt hab)
          have h1' : lexLt as bs = false := by simpa [lexLt, hab, hba] using h1
          have h2' : lexLt bs as = false := by simpa [lexLt, hab, hba] using h2
          rw [hco, ih bs h1' h2']

lemma lexLt_trans : ∀ as bs cs, lexLt as bs = true → lexLt bs cs = true →
    lexLt as cs = true := by
  intro as
  induction as with
  | nil =>
    intro bs cs h1 h2
    cases bs with
    | nil => exact absurd h1 (by simp [lexLt])
    | cons b bs =>
      cases cs with
      | nil => exact absurd h2 (by simp [lexLt])
      | cons c cs => rfl
  | cons a as ih =>
    intro bs cs h1 h2
    cases bs with
    | nil => exact absurd h1 (by simp [lexLt])
    | cons b bs =>
      cases cs with
      | nil => exact absurd h2 (by simp [lexLt])
      | cons c cs =>
        by_cases hab : a.toNat < b.toNat
        · by_cases hbc : b.toNat < c.toNat
          · simp [lexLt, Nat.lt_trans hab hbc]
          · by_cases hcb : c.toNat < b.toNat
            · exact absurd h2 (by simp [lexLt, hbc, hcb])
            · have hac : a.toNat < c.toNat := by omega
              simp [lexLt, hac]
        · by_cases hba : b.toNat < a.toNat
          · exact absurd h1 (by simp [lexLt, hab, hba])
          · have h1' : lexLt as bs = true := by simpa [lexLt, hab, hba] using h1
            by_cases hbc : b.toNat < c.toNat
            · have hac : a.toNat < c.toNat := by omega
              simp [lexLt, hac]
            · by_cases hcb : c.toNat < b.toNat
              · exact absurd h2 (by simp [lexLt, hbc, hcb])
              · have h2' : lexLt bs cs = true := by
                  simpa [lexLt, hbc, hcb] using h2
                have hac : ¬ a.toNat < c.toNat := by omega
                have hca : ¬ c.toNat < a.toNat := by omega
                simp [lexLt, hac, hca, ih bs cs h1' h2']

lemma pyStrLe_total (a b : String) : pyStrLe a b = true ∨ pyStrLe b a = true := by
  unfold pyStrLe
  by_cases h : lexLt b.data a.data = true
  · right
    simp [lexLt_asymm _ _ h]
  · left
    cases hb : lexLt b.data a.data
    · simp
    · exact absurd hb h

lemma pyStrLe_trans (a b c : String) (h1 : pyStrLe a b = true)
    (h2 : pyStrLe b c = true) : pyStrLe a c = true := by
  unfold pyStrLe at h1 h2 ⊢
  have h1' : lexLt b.data a.data = false := by simpa using h1
  have h2' : lexLt c.data b.data = false := by simpa using h2
  suffices hs : lexLt c.data a.data = false by simp [hs]
  cases hx : lexLt c.data a.data
  · rfl
  · exfalso
    by_cases hbc : lexLt b.data c.data = true
    · have := lexLt_trans b.data c.data a.data hbc hx
      rw [this] at h1'
      exact absurd h1' (by simp)
    · have hbc' : lexLt b.data c.data = false := by
        cases hy : lexLt b.data c.data
        · rfl
        · exact absurd hy hbc
      have heq : b.data = c.data := lexLt_connex b.data c.data hbc' h2'
      rw [← heq] at hx
      rw [hx] at h1'
      exact absurd h1' (by simp)

lemma pairwise_pySortedSet (l : List String) :
    List.Pairwise (fun a b => pyStrLe a b = true) (pySortedSet l) := by
  haveI : IsTotal String (fun a b => pyStrLe a b = true) := ⟨pyStrLe_total⟩
  haveI : IsTrans String (fun a b => pyStrLe a b = true) :=
    ⟨fun a b c => pyStrLe_trans a b c⟩
  exact List.sorted_insertionSort _ _

lemma mem_pySortedSet (l : List String) (x : String) :
    x ∈ pySortedSet l ↔ x ∈ l := by
  unfold pySortedSet
  rw [(List.perm_insertionSort _ _).mem_iff]
  exact List.mem_dedup

/-- Claim C1: in any completed run, no two emitted output rows share a
fingerprint — the fingerprints of the data rows are pairwise distinct, and
hence so are the raw names themselves; moreover, when the fingerprint
function is injective (no digest collisions), every raw name occurring in at
least one matching record gets exactly one output row. -/
theorem C1_dedup_fingerprints (env : Env) (chunk : Nat) (prior : List Row)
    (files : List Archive) (st : ScanSt) (b : Bool)
    (h : scan env chunk prior files = Except.ok (st, b)) :
    ((st.file.tail.map rowName).map env.hash_line).Nodup ∧
    (st.file.tail.map rowName).Nodup ∧
    (Function.Injective env.hash_line →
      ∀ nm, matchingFor env nm (allLines files) ≠ [] →
        (st.file.tail.filter (fun r => rowName r == nm)).length = 1) := by
  obtain ⟨e1, _, _, _, hgood⟩ := scan_emit env chunk prior files st b h
  have htail : st.file.tail = (emitLoop env [] (allLines files)).1 := by
    rw [e1]; rfl
  rw [htail]
  refine ⟨(emitLoop_hash_nodup env (allLines files) []).1, ?_, ?_⟩
  · exact List.Nodup.of_map env.hash_line
      (emitLoop_hash_nodup env (allLines files) []).1
  · intro hinj nm hne
    rw [emitLoop_filter_first env nm hinj (allLines files) [] hgood
      (List.not_mem_nil _)]
    cases hmc : matchingFor env nm (allLines files) with
    | nil => exact absurd hmc hne
    | cons p ps => simp

/-- Concrete instantiation for C1: a run in which one name occurs twice and
a second name once; the two emitted rows have distinct fingerprints and
distinct names, and each name that matched has exactly one row. -/
theorem C1_dedup_fingerprints_witness :
    ((stDup.file.tail.map rowName).map envExact.hash_line).Nodup ∧
    (stDup.file.tail.map rowName).Nodup ∧
    (Function.Injective envExact.hash_line →
      ∀ nm, matchingFor envExact nm (allLines filesDup) ≠ [] →
        (stDup.file.tail.filter (fun r => rowName r == nm)).length = 1) :=
  C1_dedup_fingerprints envExact 1000000 [] filesDup stDup true (by decide)

/-- Claim C10: in any completed run whose fingerprint function is injective,
the rows carrying a given raw name are exactly the row built from the first
matching record with that name in discovery order — so identifiers computed
for later records with the same raw name never affect the output. -/
theorem C10_first_occurrence_wins (env : Env) (chunk : Nat) (prior : List Row)
    (files : List Archive) (st : ScanSt) (b : Bool) (nm : String)
    (hinj : Function.Injective env.hash_line)
    (h : scan env chunk prior files = Except.ok (st, b)) :
    st.file.tail.filter (fun r => rowName r == nm) =
      ((matchingFor env nm (allLines files)).head?.map
        (fun p => mkRow p.1 p.2)).toList := by
  obtain ⟨e1, _, _, _, hgood⟩ := scan_emit env chunk prior files st b h
  have htail : st.file.tail = (emitLoop env [] (allLines files)).1 := by
    rw [e1]; rfl
  rw [htail]
  exact emitLoop_filter_first env nm hinj (allLines files) [] hgood
    (List.not_mem_nil _)

/-- Concrete instantiation for C10: the name `r/marfan` occurs in two
matching records; its single output row is the one built from the first. -/
theorem C10_first_occurrence_wins_witness :
    stDup.file.tail.filter (fun r => rowName r == "r/marfan") =
      ((matchingFor envExact "r/marfan" (allLines filesDup)).head?.map
        (fun p => mkRow p.1 p.2)).toList :=
  C10_first_occurrence_wins envExact 1000000 [] filesDup stDup true "r/marfan"
    (fun _ _ hab => hab) (by decide)

/-- Claim C8: in any completed run the output file is exactly the fixed
header row followed by the flushed batches in order (fresh creation plus
append-only flushes of whole rows), and every data row consists of the raw,
unstripped subreddit name together with the semicolon-joined sorted list of
its match identifiers; the scan result does not depend on what the output
file held before the run (truncation). -/
theorem C8_output_format (env : Env) (chunk : Nat) (prior : List Row)
    (files : List Archive) (st : ScanSt) (b : Bool)
    (h : scan env chunk prior files = Except.ok (st, b)) :
    st.file = headerRow :: st.writes.flatten ∧
    st.file.head? = some headerRow ∧
    (∀ prior2, scan env chunk prior2 files = scan env chunk prior files) ∧
    (∀ r ∈ st.file.tail, ∃ obj ids,
      stepIds env obj = some ids ∧ ids ≠ [] ∧
      r = [rawName obj, String.intercalate (";") (pySortedSet ids)] ∧
      List.Pairwise (fun a b => pyStrLe a b = true) (pySortedSet ids) ∧
      (∀ x, x ∈ pySortedSet ids ↔ x ∈ ids)) := by
  obtain ⟨e1, _, hsink, _, _⟩ := scan_emit env chunk prior files st b h
  refine ⟨hsink.1, by rw [e1]; rfl, fun prior2 => rfl, ?_⟩
  intro r hr
  rw [show st.file.tail = (emitLoop env [] (allLines files)).1 by rw [e1]; rfl] at hr
  obtain ⟨obj, ids, hsi, hne, hr2⟩ :=
    emitLoop_rows_shape env (allLines files) [] r hr
  exact ⟨obj, ids, hsi, hne, hr2, pairwise_pySortedSet ids,
    fun x => mem_pySortedSet ids x⟩

/-- Concrete instantiation for C8 on the run over `filesDup`. -/
theorem C8_output_format_witness :
    stDup.file = headerRow :: stDup.writes.flatten ∧
    stDup.file.head? = some headerRow ∧
    (∀ prior2, scan envExact 1000000 prior2 filesDup =
      scan envExact 1000000 [] filesDup) ∧
    (∀ r ∈ stDup.file.tail, ∃ obj ids,
      stepIds envExact obj = some ids ∧ ids ≠ [] ∧
      r = [rawName obj, String.intercalate (";") (pySortedSet ids)] ∧
      List.Pairwise (fun a b => pyStrLe a b = true) (pySortedSet ids) ∧
      (∀ x, x ∈ pySortedSet ids ↔ x ∈ ids)) :=
  C8_output_format envExact 1000000 [] filesDup stDup true (by decide)

/-- Claim C9: in any completed run, the scan reports success exactly when at
least one candidate row was written to the output sink; with the
verification flag set, the downstream process is invoked only after a
successful scan (on an unsuccessful scan the overall run succeeds with
`false` regardless of the downstream outcome), and a downstream failure
propagates as a fatal error of the overall invocation. -/
theorem C9_success_and_verify (env : Env) (chunk : Nat) (prior : List Row)
    (files : List Archive) (st : ScanSt) (b : Bool)
    (outcome : Except String Unit) (e : String)
    (h : scan env chunk prior files = Except.ok (st, b)) :
    (b = true ↔ st.file.tail ≠ []) ∧
    (mainRun env chunk prior files false outcome = Except.ok b) ∧
    (b = false → mainRun env chunk prior files true outcome = Except.ok false) ∧
    (b = true → mainRun env chunk prior files true (Except.error e) =
      Except.error ("CalledProcessError: " ++ e)) ∧
    (b = true → mainRun env chunk prior files true (Except.ok ()) =
      Except.ok true) := by
  obtain ⟨e1, _, hsink, hb, _⟩ := scan_emit env chunk prior files st b h
  refine ⟨?_, ?_, ?_, ?_, ?_⟩
  · rw [hb]
    have hlen : st.file.length = st.total_kept + 1 := hsink.2
    have htl : st.file.tail.length = st.total_kept := by
      rw [e1] at hlen ⊢
      simp at hlen ⊢
      omega
    constructor
    · intro hk h0
      rw [h0] at htl
      simp at htl
      rw [← htl] at hk
      simp at hk
    · intro hne
      have : 0 < st.file.tail.length := List.length_pos.mpr hne
      rw [htl] at this
      simp [this]
  · simp [mainRun, h]
  · intro hb0
    rw [hb0] at h
    simp [mainRun, h]
  · intro hb1
    rw [hb1] at h
    simp [mainRun, h, run_verify]
  · intro hb1
    rw [hb1] at h
    simp [mainRun, h, run_verify]

/-- Concrete instantiation for C9 on the run over `filesDup`, with a failing
downstream process. -/
theorem C9_success_and_verify_witness :
    (true = true ↔ stDup.file.tail ≠ []) ∧
    (mainRun envExact 1000000 [] filesDup false (Except.error ("boom")) =
      Except.ok true) ∧
    (true = false → mainRun envExact 1000000 [] filesDup true
      (Except.error ("boom")) = Except.ok false) ∧
    (true = true → mainRun envExact 1000000 [] filesDup true
      (Except.error ("boom")) =
      Except.error ("CalledProcessError: " ++ "boom")) ∧
    (true = true → mainRun envExact 1000000 [] filesDup true (Except.ok ()) =
      Except.ok true) :=
  C9_success_and_verify envExact 1000000 [] filesDup stDup true
    (Except.error ("boom")) ("boom") (by decide)

lemma modSucc (p c : Nat) (hC : 0 < c) (h : (p + 1) % c ≠ 0) :
    (p + 1) % c = p % c + 1 := by
  rcases Nat.lt_or_ge 1 c with hc2 | hc1
  · have h1 : (p + 1) % c = (p % c + 1) % c := by
      conv_lhs => rw [Nat.add_mod]
      rw [Nat.mod_eq_of_lt hc2]
    have hlt : p % c < c := Nat.mod_lt p hC
    by_cases hle : p % c + 1 < c
    · rw [h1, Nat.mod_eq_of_lt hle]
    · have heq : p % c + 1 = c := by omega
      exact absurd (by rw [h1, heq, Nat.mod_self]) h
  · have : c = 1 := by omega
    rw [this] at h
    exact absurd (Nat.mod_one (p + 1)) h

lemma succ_div_dvd (p c : Nat) (h : (p + 1) % c = 0) :
    (p + 1) / c = p / c + 1 := by
  rw [Nat.succ_div, if_pos (Nat.dvd_of_mod_eq_zero h)]

lemma succ_div_not_dvd (p c : Nat) (_hC : 0 < c) (h : (p + 1) % c ≠ 0) :
    (p + 1) / c = p / c := by
  rw [Nat.succ_div, if_neg]
  · simp
  · intro hd
    exact h (Nat.dvd_iff_mod_eq_zero.mp hd)

lemma maybeFlush_counts_flush (chunk : Nat) (st : ScanSt)
    (hc : st.processed % chunk = 0) (hr : st.rows ≠ []) :
    maybeFlush chunk st =
      { st with file := st.file ++ st.rows,
                writes := st.writes ++ [st.rows],
                total_kept := st.total_kept + st.rows.length,
                rows := [] } := by
  unfold maybeFlush flush
  rw [if_pos (by simp [hc]), if_neg (fun hx => hr (List.isEmpty_iff.mp hx))]

lemma maybeFlush_counts_skip (chunk : Nat) (st : ScanSt)
    (hc : st.processed % chunk ≠ 0) :
    maybeFlush chunk st = st := by
  unfold maybeFlush
  rw [if_neg (by simpa using hc)]

lemma stepIds_envExact (nm : String) :
    stepIds envExact ⟨some nm, none, none⟩ = some ["ORPHA1"] := by
  rw [stepIds_eq]
  rw [if_neg]
  · rfl
  · intro hx
    exact absurd hx.1 (by simp [envExact])

lemma finalFlush_counts (st : ScanSt) :
    (finalFlush st).file.length = st.file.length + st.rows.length ∧
    ((finalFlush st).writes.length = st.writes.length ∧ st.rows.length = 0 ∨
      (finalFlush st).writes.length = st.writes.length + 1) := by
  unfold finalFlush flush
  by_cases hr : st.rows.isEmpty = true
  · have h0 := List.isEmpty_iff.mp hr
    rw [if_pos hr]
    simp [h0]
  · rw [if_neg hr]
    simp

lemma processLines_envExact_counts (chunk : Nat) (hC : 0 < chunk) :
    ∀ (names : List String) (st : ScanSt),
      names.Nodup → (∀ nm ∈ names, nm ∉ st.seen_hash) →
      st.rows.length = st.processed % chunk →
      ∃ st', processLines envExact chunk st (mkLines names) = Except.ok st' ∧
        st'.processed = st.processed + names.length ∧
        st'.rows.length = st'.processed % chunk ∧
        st'.file.length + st'.rows.length =
          st.file.length + st.rows.length + names.length ∧
        st'.writes.length + st.processed / chunk =
          st.writes.length + st'.processed / chunk ∧
        st'.total_kept + st.file.length = st.total_kept + st'.file.length ∧
        st'.seen_hash = st.seen_hash ++ names := by
  intro names
  induction names with
  | nil =>
    intro st _ _ hb
    exact ⟨st, rfl, by simp, hb, by simp, rfl, rfl, by simp⟩
  | cons nm rest ih =>
    intro st hnd hfresh hb
    have hsi := stepIds_envExact nm
    have hfr : envExact.hash_line (rawName (⟨some nm, none, none⟩ : RecordObj)) ∉
        st.seen_hash := by
      simpa [envExact, rawName, pyGet] using hfresh nm (List.mem_cons_self _ _)
    have hemp' : (["ORPHA1"] : List String).isEmpty = false := rfl
    have hrs : recordStep envExact st ⟨some nm, none, none⟩ ["ORPHA1"] =
        { st with processed := st.processed + 1,
                  rows := st.rows ++ [mkRow ⟨some nm, none, none⟩ ["ORPHA1"]],
                  seen_hash := st.seen_hash ++ [nm] } := by
      rw [recordStep_fresh envExact st _ _ hemp' hfr]
      rfl
    have hstep : processLines envExact chunk st (mkLines (nm :: rest)) =
        processLines envExact chunk
          (maybeFlush chunk
            (recordStep envExact st ⟨some nm, none, none⟩ ["ORPHA1"]))
          (mkLines rest) := by
      show processLines envExact chunk st
          (Line.valid ⟨some nm, none, none⟩ :: mkLines rest) = _
      rw [processLines, stepLine_some envExact chunk st _ _ hsi]
    have hnd' : rest.Nodup := (List.nodup_cons.mp hnd).2
    have hnmr : nm ∉ rest := (List.nodup_cons.mp hnd).1
    by_cases hc : (st.processed + 1) % chunk = 0
    · have hst2 : maybeFlush chunk
          (recordStep envExact st ⟨some nm, none, none⟩ ["ORPHA1"]) =
          { st with
              processed := st.processed + 1,
              file := st.file ++
                (st.rows ++ [mkRow ⟨some nm, none, none⟩ ["ORPHA1"]]),
              writes := st.writes ++
                [st.rows ++ [mkRow ⟨some nm, none, none⟩ ["ORPHA1"]]],
              total_kept := st.total_kept +
                (st.rows ++ [mkRow ⟨some nm, none, none⟩ ["ORPHA1"]]).length,
              rows := [],
              seen_hash := st.seen_hash ++ [nm] } := by
        rw [hrs, maybeFlush_counts_flush chunk _ hc (by simp)]
      have hmain := ih
        { st with
            processed := st.processed + 1,
            file := st.file ++
              (st.rows ++ [mkRow ⟨some nm, none, none⟩ ["ORPHA1"]]),
            writes := st.writes ++
              [st.rows ++ [mkRow ⟨some nm, none, none⟩ ["ORPHA1"]]],
            total_kept := st.total_kept +
              (st.rows ++ [mkRow ⟨some nm, none, none⟩ ["ORPHA1"]]).length,
            rows := [],
            seen_hash := st.seen_hash ++ [nm] }
        hnd'
        (by
          intro nm' h' hx
          rcases List.mem_append.mp hx with hx1 | hx1
          · exact hfresh nm' (List.mem_cons_of_mem _ h') hx1
          · have hxe : nm' = nm := by simpa using hx1
            exact hnmr (hxe ▸ h'))
        (by
          show ([] : List Row).length = (st.processed + 1) % chunk
          simp [hc])
      obtain ⟨st', hpl', e2, e3, e4, e5, e6, e7⟩ := hmain
      have e2' : st'.processed = st.processed + 1 + rest.length := e2
      have e4' : st'.file.length + st'.rows.length =
          (st.file ++
            (st.rows ++ [mkRow ⟨some nm, none, none⟩ ["ORPHA1"]])).length +
          ([] : List Row).length + rest.length := e4
      simp only [List.length_append, List.length_cons, List.length_nil] at e4'
      have e5' : st'.writes.length + (st.processed + 1) / chunk =
          (st.writes ++
            [st.rows ++ [mkRow ⟨some nm, none, none⟩ ["ORPHA1"]]]).length +
          st'.processed / chunk := e5
      simp only [List.length_append, List.length_cons, List.length_nil] at e5'
      have e6' : st'.total_kept +
          (st.file ++
            (st.rows ++ [mkRow ⟨some nm, none, none⟩ ["ORPHA1"]])).length =
          (st.total_kept +
            (st.rows ++ [mkRow ⟨some nm, none, none⟩ ["ORPHA1"]]).length) +
          st'.file.length := e6
      simp only [List.length_append, List.length_cons, List.length_nil] at e6'
      have e7' : st'.seen_hash = (st.seen_hash ++ [nm]) ++ rest := e7
      have hdiv : (st.processed + 1) / chunk = st.processed / chunk + 1 :=
        succ_div_dvd st.processed chunk hc
      rw [hdiv] at e5'
      refine ⟨st', ?_, ?_, e3, ?_, ?_, ?_, ?_⟩
      · rw [hstep, hst2]
        exact hpl'
      · rw [e2', List.length_cons]
        omega
      · rw [List.length_cons]
        omega
      · generalize st.processed / chunk = d1 at e5' ⊢
        generalize st'.processed / chunk = d2 at e5' ⊢
        omega
      · omega
      · rw [e7']
        simp
    · have hst2 : maybeFlush chunk
          (recordStep envExact st ⟨some nm, none, none⟩ ["ORPHA1"]) =
          { st with
              processed := st.processed + 1,
              rows := st.rows ++ [mkRow ⟨some nm, none, none⟩ ["ORPHA1"]],
              seen_hash := st.seen_hash ++ [nm] } := by
        rw [hrs, maybeFlush_counts_skip chunk _ hc]
      have hmod1 : (st.rows ++
          [mkRow ⟨some nm, none, none⟩ ["ORPHA1"]]).length =
          (st.processed + 1) % chunk := by
        rw [modSucc st.processed chunk hC hc]
        simp [hb]
      have hmain := ih
        { st with
            processed := st.processed + 1,
            rows := st.rows ++ [mkRow ⟨some nm, none, none⟩ ["ORPHA1"]],
            seen_hash := st.seen_hash ++ [nm] }
        hnd'
        (by
          intro nm' h' hx
          rcases List.mem_append.mp hx with hx1 | hx1
          · exact hfresh nm' (List.mem_cons_of_mem _ h') hx1
          · have hxe : nm' = nm := by simpa using hx1
            exact hnmr (hxe ▸ h'))
        hmod1
      obtain ⟨st', hpl', e2, e3, e4, e5, e6, e7⟩ := hmain
      have e2' : st'.processed = st.processed + 1 + rest.length := e2
      have e4' : st'.file.length + st'.rows.length =
          st.file.length +
          (st.rows ++ [mkRow ⟨some nm, none, none⟩ ["ORPHA1"]]).length +
          rest.length := e4
      simp only [List.length_append, List.length_cons, List.length_nil] at e4'
      have e5' : st'.writes.length + (st.processed + 1) / chunk =
          st.writes.length + st'.processed / chunk := e5
      have e6' : st'.total_kept + st.file.length =
          st.total_kept + st'.file.length := e6
      have e7' : st'.seen_hash = (st.seen_hash ++ [nm]) ++ rest := e7
      have hdiv : (st.processed + 1) / chunk = st.processed / chunk :=
        succ_div_not_dvd st.processed chunk hC hc
      rw [hdiv] at e5'
      refine ⟨st', ?_, ?_, e3, ?_, e5', e6', ?_⟩
      · rw [hstep, hst2]
        exact hpl'
      · rw [e2', List.length_cons]
        omega
      · rw [List.length_cons]
        omega
      · rw [e7']
        simp

/-- Claim C4: with flush chunk size C and one archive of exactly 2C+5
matching records with distinct raw names, the completed run reports success,
the Output Sink holds exactly 2C+5 data rows below the header (file length
2C+6), and the rows were written by at least 3 append (flush) operations —
the periodic flushes triggered by the processed-record counter plus the
final flush. -/
theorem C4_flush_boundary (chunk : Nat) (hC : 0 < chunk) (prior : List Row)
    (fname : String) (names : List String) (hnd : names.Nodup)
    (hlen : names.length = 2 * chunk + 5) :
    ∃ st, scan envExact chunk prior [Archive.ok fname (mkLines names)] =
        Except.ok (st, true) ∧
      st.file.length = 2 * chunk + 6 ∧
      st.file.head? = some headerRow ∧
      3 ≤ st.writes.length := by
  obtain ⟨st', hpl, e2, e3, e4, e5, e6, e7⟩ :=
    processLines_envExact_counts chunk hC names (initState prior) hnd
      (by intro x _ hx; exact absurd hx (List.not_mem_nil x))
      (by simp [initState])
  have e2' : st'.processed = 0 + names.length := e2
  have e4' : st'.file.length + st'.rows.length = 1 + 0 + names.length := e4
  have e5' : st'.writes.length + 0 / chunk = 0 + st'.processed / chunk := e5
  simp only [Nat.zero_div, Nat.add_zero, Nat.zero_add] at e2' e4' e5'
  have harch : scanArchive envExact chunk (initState prior) (mkLines names) =
      Except.ok (finalFlush st') := by
    rw [scanArchive]
    have hinit : ({ initState prior with rows := [], processed := 0 } : ScanSt) =
        initState prior := rfl
    rw [hinit, hpl]
  have hsf : scanFiles envExact chunk (initState prior)
      [Archive.ok fname (mkLines names)] = Except.ok (finalFlush st') := by
    simp [scanFiles, open_zst, harch]
  have hsink : SinkInv (finalFlush st') :=
    sinkInv_finalFlush st'
      (sinkInv_processLines envExact chunk (mkLines names) (initState prior)
        st' hpl ⟨rfl, rfl⟩)
  obtain ⟨hffl, hffw⟩ := finalFlush_counts st'
  have hflen : (finalFlush st').file.length = 2 * chunk + 6 := by omega
  have hkept : (finalFlush st').total_kept = 2 * chunk + 5 := by
    have := hsink.2
    omega
  have hscan : scan envExact chunk prior [Archive.ok fname (mkLines names)] =
      Except.ok (finalFlush st', true) := by
    rw [scan, if_neg (by simp), hsf]
    have hd : decide (0 < (finalFlush st').total_kept) = true := by
      simp [hkept]
    show Except.ok (finalFlush st', decide (0 < (finalFlush st').total_kept)) =
      Except.ok (finalFlush st', true)
    rw [hd]
  have hhead : (finalFlush st').file.head? = some headerRow := by
    rw [hsink.1]
    rfl
  refine ⟨finalFlush st', hscan, hflen, hhead, ?_⟩
  rcases hffw with ⟨hw, hr0⟩ | hw
  · have hp : st'.processed = 2 * chunk + 5 := by omega
    have hmod0 : (2 * chunk + 5) % chunk = 0 := by
      rw [← hp]
      omega
    have hdvd : chunk ∣ 5 := by
      have h1 : chunk ∣ 2 * chunk + 5 := Nat.dvd_of_mod_eq_zero hmod0
      have h2 : chunk ∣ 2 * chunk := dvd_mul_left chunk 2
      have h3 := Nat.dvd_sub' h1 h2
      simpa [show 2 * chunk + 5 - 2 * chunk = 5 from by omega] using h3
    have hq : 1 ≤ 5 / chunk := (Nat.le_div_iff_mul_le hC).mpr
      (by
        have := Nat.le_of_dvd (by norm_num) hdvd
        omega)
    have hdiveq : (2 * chunk + 5) / chunk = 5 / chunk + 2 := by
      rw [show 2 * chunk + 5 = 5 + chunk * 2 from by omega]
      exact Nat.add_mul_div_left 5 2 hC
    rw [hw, e5', hp, hdiveq]
    generalize 5 / chunk = q at hq ⊢
    omega
  · have hp : st'.processed = 2 * chunk + 5 := by omega
    have hge2 : 2 ≤ (2 * chunk + 5) / chunk := (Nat.le_div_iff_mul_le hC).mpr
      (by omega)
    rw [hw, e5', hp]
    generalize (2 * chunk + 5) / chunk = q at hge2 ⊢
    omega

/-- Concrete instantiation for C4 with chunk size 3 and 11 = 2*3+5 distinct
matching names. -/
theorem C4_flush_boundary_witness :
    ∃ st, scan envExact 3 [] [Archive.ok ("a") (mkLines namesEleven)] =
        Except.ok (st, true) ∧
      st.file.length = 2 * 3 + 6 ∧
      st.file.head? = some headerRow ∧
      3 ≤ st.writes.length :=
  C4_flush_boundary 3 (by decide) [] ("a") namesEleven (by decide) (by decide)

end FindCandidates
